import Mathlib

/-!
Verification of the lynx-hot-update system: a shallow embedding of the
update resolver (server), the delta packaging engine, and the client
update agent, with theorems settling the specification's claims.

Server side (server.js): a release record, the `findApplicableRelease`
scan, and the decision logic of the `POST /api/check-update` route.
The `semver` library calls are embedded for plain `MAJOR.MINOR.PATCH`
versions; the `semver.satisfies` range predicate and the scaled random
sample `Math.random() * 100` are passed in as parameters, mirroring the
external library and the ambient random source.
-/

namespace LynxServer

/-- Splits a list of characters on the dot character, mirroring how a
version string \x22a.b.c\x22 is cut into its numeric components. -/
def splitOnDot : List Char → List (List Char)
  | [] => [[]]
  | c :: cs =>
    let rest := splitOnDot cs
    if c = '.' then [] :: rest
    else match rest with
      | [] => [[c]]
      | g :: gs => (c :: g) :: gs

/-- Reads a nonempty all-digit character group as a natural number. -/
def digitsToNat : List Char → Option Nat
  | [] => none
  | cs =>
    if cs.all (fun c => c.isDigit) then
      some (cs.foldl (fun n c => n * 10 + (c.toNat - '0'.toNat)) 0)
    else none

/-- Parse of a plain semantic version string MAJOR.MINOR.PATCH into a
numeric triple; `none` when the string is not of that shape.  Embeds the
`semver.valid` / comparison base used by `findApplicableRelease`. -/
def parseSemver (s : String) : Option (Nat × Nat × Nat) :=
  match (splitOnDot s.data).map digitsToNat with
  | [some a, some b, some c] => some (a, b, c)
  | _ => none

/-- A version string is valid when it parses (embeds `semver.valid`). -/
def semverValid (s : String) : Bool := (parseSemver s).isSome

/-- Lexicographic strict order on version triples. -/
def tripleLt : Nat × Nat × Nat → Nat × Nat × Nat → Bool
  | (a1, b1, c1), (a2, b2, c2) =>
    a1 < a2 || (a1 = a2 && (b1 < b2 || (b1 = b2 && c1 < c2)))

/-- Strict semantic-version comparison (embeds `semver.gt a b`); `false`
when either side does not parse (the scan only consults it when both
sides are valid). -/
def semverGt (a b : String) : Bool :=
  match parseSemver a, parseSemver b with
  | some x, some y => tripleLt y x
  | _, _ => false

/-- One release record as stored by the server (the fields consulted by
the check-update route; `rollout` defaults to 100 on publish). -/
structure Release where
  version : String
  rollout : Int
  targetBinaryVersion : Option String
  disabled : Bool
  deriving DecidableEq, Repr

/-- JavaScript truthiness of an optional string field: absent and the
empty string are falsy. -/
def optTruthy : Option String → Bool
  | none => false
  | some s => s != ""

/-- Value of an optional string as handed to the semver library. -/
def optStr : Option String → String
  | none => ""
  | some s => s

/-- The skip condition of the scan's target-binary-version check, in the
source's operand order: `release.targetBinaryVersion &&
release.targetBinaryVersion !== '*' && appVersion &&
!semver.satisfies(appVersion, release.targetBinaryVersion)`. -/
def skipTargetBinary (sat : String → String → Bool) (r : Release)
    (appVersion : Option String) : Bool :=
  optTruthy r.targetBinaryVersion && (r.targetBinaryVersion != some "*")
    && optTruthy appVersion
    && !(sat (optStr appVersion) (optStr r.targetBinaryVersion))

/-- The newest-first scan of `findApplicableRelease(releases,
currentVersion, appVersion)`: skips the current version, skips entries
not strictly newer when both versions parse, skips entries failing the
target-binary check, and returns the first survivor.  The range
predicate `sat` stands for `semver.satisfies`. -/
def findApplicableRelease (sat : String → String → Bool)
    (releases : List Release) (currentVersion : String)
    (appVersion : Option String) : Option Release :=
  match releases with
  | [] => none
  | r :: rest =>
    if r.version == currentVersion then
      findApplicableRelease sat rest currentVersion appVersion
    else if semverValid r.version && semverValid currentVersion
        && !(semverGt r.version currentVersion) then
      findApplicableRelease sat rest currentVersion appVersion
    else if skipTargetBinary sat r appVersion then
      findApplicableRelease sat rest currentVersion appVersion
    else some r

/-- Decision logic of the `POST /api/check-update` route after the scan:
rollout gating with the scaled random sample (`Math.random() * 100 <
rollout`, consulted only when `rollout < 100`), then the disabled check,
then the release is offered. -/
def checkUpdate (sat : String → String → Bool) (sample : ℚ)
    (releases : List Release) (currentVersion : String)
    (appVersion : Option String) : Option Release :=
  match findApplicableRelease sat releases currentVersion appVersion with
  | none => none
  | some r =>
    if r.rollout < 100 then
      if sample < (r.rollout : ℚ) then
        if r.disabled then none else some r
      else none
    else if r.disabled then none else some r

end LynxServer

section ServerFixtures
open LynxServer

/-- The fully rolled-out, enabled release 2.0.0 of the spec's example
scenario. -/
def rel20 : Release :=
  { version := "2.0.0", rollout := 100, targetBinaryVersion := some "*", disabled := false }

/-- The fully rolled-out release 1.5.0 of the spec's example scenario. -/
def rel15 : Release :=
  { version := "1.5.0", rollout := 100, targetBinaryVersion := some "*", disabled := false }

/-- The release 2.0.0 after patching it to disabled. -/
def rel20d : Release := { rel20 with disabled := true }

end ServerFixtures

/-!
Client side (the Android SDK object `LynxHotUpdate`): the persistent
installation state is the shared-preferences entries together with the
three generation directories.  A generation directory is modelled as an
optional content identifier (`none` when the directory is absent).
-/

namespace LynxClient

/-- Persistent state of one installation: the preference entries
(`current_version`, `pending_version`, `previous_version`, the per-version
confirmation flags and launch counters) and the three directories
`lynx_bundles`, `lynx_pending`, `lynx_bundles_backup`. -/
structure ClientState where
  currentVersion : Option String
  pendingVersion : Option String
  previousVersion : Option String
  confirmed : String → Bool
  launches : String → Nat
  bundles : Option String
  pending : Option String
  backup : Option String

/-- State change of `installUpdate(zipFile, version)`: extract the
package into the pending directory (replacing any prior pending) and
record the pending version; `current` is untouched. -/
def installUpdate (st : ClientState) (pkg version : String) : ClientState :=
  { st with pending := some pkg, pendingVersion := some version }

/-- Intermediate state of `applyPendingUpdate` immediately after
`bundleDir.deleteRecursively()` and before `pendingDir.renameTo(bundleDir)`:
when both guards pass, the current generation directory is gone while the
pending directory still holds the new generation. -/
def applyPendingUpdateMid (st : ClientState) : ClientState :=
  match st.pendingVersion, st.pending with
  | some _, some _ => { st with bundles := none }
  | _, _ => st

/-- Second half of `applyPendingUpdate` after the recursive delete: the
rename of pending onto the bundles directory, then the preference edit
setting `current_version` and removing `pending_version`. -/
def applyFinish (st : ClientState) (pv : String) : ClientState :=
  { st with bundles := st.pending, pending := none,
            currentVersion := some pv, pendingVersion := none }

/-- State change of `applyPendingUpdate()`: returns unchanged when no
pending version is recorded or the pending directory is absent;
otherwise deletes the bundles directory, renames pending onto it, and
updates the version preferences.  No backup is taken and the
confirmation entries are untouched. -/
def applyPendingUpdate (st : ClientState) : ClientState :=
  match st.pendingVersion with
  | none => st
  | some pv =>
    match st.pending with
    | none => st
    | some _ => applyFinish (applyPendingUpdateMid st) pv

/-- State change of `init(context, deploymentKey, serverUrl)`: beyond
storing the configuration it only calls `applyPendingUpdate()`. -/
def sdkInit (st : ClientState) : ClientState := applyPendingUpdate st

/-- State change of `clearUpdates()`: deletes the `lynx_bundles` and
`lynx_pending` directories and clears every preference entry; the
`lynx_bundles_backup` directory is not touched. -/
def clearUpdates (st : ClientState) : ClientState :=
  { st with bundles := none, pending := none,
            currentVersion := none, pendingVersion := none,
            previousVersion := none,
            confirmed := fun _ => false, launches := fun _ => 0 }

/-- State change of `rollbackToPreviousVersion()`: a no-op unless a
previous version is recorded and the backup directory exists; otherwise
the backup directory replaces the bundles directory and the version
preferences are rewound. -/
def rollbackToPreviousVersion (st : ClientState) : ClientState :=
  match st.previousVersion with
  | none => st
  | some pv =>
    match st.backup with
    | none => st
    | some _ =>
      { st with bundles := st.backup, backup := none,
                currentVersion := some pv, previousVersion := none }

/-- State change of the (never invoked) `checkAutoRollback()`: when the
current version is unconfirmed and a previous version is recorded, the
launch counter is incremented, and on reaching 3 the rollback runs. -/
def checkAutoRollback (st : ClientState) : ClientState :=
  match st.currentVersion with
  | none => st
  | some cv =>
    if !(st.confirmed cv) && (st.previousVersion != none) then
      let lc := st.launches cv + 1
      let st1 : ClientState :=
        { st with launches := fun v => if v = cv then lc else st.launches v }
      if lc ≥ 3 then rollbackToPreviousVersion st1 else st1
    else st

/-- Verification step of `downloadUpdate` (after the bytes arrive):
when an advertised hash is present and differs from the digest of the
received file, the temp file is deleted and the attempt fails with no
state change; otherwise `installUpdate` stages the package.  Returns the
new state and the success flag handed to `onComplete`. -/
def downloadVerify (st : ClientState) (advertisedHash : Option String)
    (fileHash : String) (pkg version : String) : ClientState × Bool :=
  match advertisedHash with
  | some h =>
    if fileHash != h then (st, false)
    else (installUpdate st pkg version, true)
  | none => (installUpdate st pkg version, true)

end LynxClient

/-!
Delta packaging engine (diff.js): trees are the path-to-hash mappings
produced by `scanDirectory` (with the file size kept alongside for the
package statistics), `generateDiff` classifies paths, `createDiffPackage`
collects the added and modified files and the size statistics, and
`applyDiffPackage` reconstructs the next tree.
-/

namespace LynxDiff

/-- One scanned file: its slash-joined relative path, its SHA-256 content
digest, and its size in bytes. -/
structure FileEntry where
  path : String
  hash : String
  size : Nat
  deriving DecidableEq, Repr

/-- A scanned tree: the ordered path-to-hash listing that `scanDirectory`
builds (a JavaScript object, so paths are unique; theorems carry that as
a hypothesis). -/
abbrev Tree : Type := List FileEntry

/-- Object lookup `files[relativePath]` on a scanned tree. -/
def lookupHash (t : Tree) (p : String) : Option String :=
  (List.find? (fun e => e.path == p) t).map (fun e => e.hash)

/-- Object lookup on a reconstructed path-to-hash listing. -/
def lookupPairs (l : List (String × String)) (p : String) : Option String :=
  (List.find? (fun q => q.1 == p) l).map Prod.snd

/-- The classification record that `generateDiff` returns. -/
structure DiffResult where
  added : List String
  modified : List String
  deleted : List String
  unchanged : List String
  deriving DecidableEq, Repr

/-- `generateDiff(oldDir, newDir)`: every path of the new tree is added
(absent from the old tree), modified (present with a different hash), or
unchanged; every path present only in the old tree is deleted. -/
def generateDiff (old new : Tree) : DiffResult :=
  { added := (new.filter (fun e => (lookupHash old e.path).isNone)).map (fun e => e.path)
    modified := (new.filter (fun e =>
        match lookupHash old e.path with
        | some h => h != e.hash
        | none => false)).map (fun e => e.path)
    deleted := (old.filter (fun e => (lookupHash new e.path).isNone)).map (fun e => e.path)
    unchanged := (new.filter (fun e =>
        match lookupHash old e.path with
        | some h => h == e.hash
        | none => false)).map (fun e => e.path) }

/-- Whether `createDiffPackage` includes a new-tree file in the delta
package body: `diff.added.includes(p) || diff.modified.includes(p)`. -/
def includedInDiff (old new : Tree) (p : String) : Bool :=
  decide (p ∈ (generateDiff old new).added) || decide (p ∈ (generateDiff old new).modified)

/-- `fullSize`: the summed sizes of every file of the new tree. -/
def fullSize (new : Tree) : Nat := (new.map (fun e => e.size)).sum

/-- `diffSize`: the summed sizes of the new-tree files included in the
delta package. -/
def diffSize (old new : Tree) : Nat :=
  ((new.filter (fun e => includedInDiff old new e.path)).map (fun e => e.size)).sum

/-- JavaScript `Math.round`: half-up rounding toward positive infinity,
the floor of the value shifted by one half (`Rat.floor` agrees with the
mathematical floor by `Rat.floor_def'`). -/
def jsRound (q : ℚ) : ℤ := Rat.floor (q + 1 / 2)

/-- The `savedPercent` statistic of `createDiffPackage`:
`Math.round((1 - diffSize / fullSize) * 100)` when `fullSize > 0`,
and 0 otherwise. -/
def savedPercent (old new : Tree) : ℤ :=
  if fullSize new > 0 then
    jsRound ((1 - (diffSize old new : ℚ) / (fullSize new : ℚ)) * 100)
  else 0

/-- The delta package body built by `createDiffPackage`: for every path
of `diff.added ++ diff.modified`, the file read from the new tree at
that path (its content keyed by its digest). -/
def packageFiles (old new : Tree) : List (String × String) :=
  ((generateDiff old new).added ++ (generateDiff old new).modified).filterMap
    (fun p =>
      match List.find? (fun e => e.path == p) new with
      | some e => some (p, e.hash)
      | none => none)

/-- File write `fs.writeFile(outputPath, entry.getData())` on the output
tree: overwrite the path when present, create it otherwise. -/
def writeFile (t : List (String × String)) (p c : String) : List (String × String) :=
  (t.filter (fun q => q.1 != p)) ++ [(p, c)]

/-- The path-to-hash listing of a copied tree (`fs.copy(currentDir,
outputDir)`). -/
def toMap (t : Tree) : List (String × String) := t.map (fun e => (e.path, e.hash))

/-- `applyDiffPackage(currentDir, diffPackagePath, outputDir)`: copy the
current tree to the output, remove every path of the manifest's deleted
list, then write every package entry. -/
def applyDiffPackage (old : Tree) (deleted : List String)
    (body : List (String × String)) : List (String × String) :=
  body.foldl (fun acc pc => writeFile acc pc.1 pc.2)
    ((toMap old).filter (fun q => decide (q.1 ∉ deleted)))

end LynxDiff

/-!
Concrete fixtures used by the claim theorems, witnesses and
counterexamples.
-/

section Fixtures
open LynxServer LynxClient LynxDiff

/-- The spec's example old tree: paths a and b with hashes h1 and h2. -/
def treeA : LynxDiff.Tree := [⟨"a", "h1", 3⟩, ⟨"b", "h2", 4⟩]

/-- The spec's example new tree: a unchanged, b modified to h3, c added
with h4. -/
def treeB : LynxDiff.Tree := [⟨"a", "h1", 3⟩, ⟨"b", "h3", 4⟩, ⟨"c", "h4", 5⟩]

/-- A release with a non-wildcard target binary range. -/
def relRange : Release :=
  { version := "2.0.0", rollout := 100, targetBinaryVersion := some "1.5.0",
    disabled := false }

/-- A release with rollout 0. -/
def rel0 : Release :=
  { version := "2.0.0", rollout := 0, targetBinaryVersion := some "*",
    disabled := false }

/-- An installation that has applied an update to 2.0.0, not yet
confirmed it, and (hypothetically) holds a backup of 1.0.0 — the premise
of the auto-rollback claim. -/
def stUnconfirmed : ClientState :=
  { currentVersion := some "2.0.0", pendingVersion := none,
    previousVersion := some "1.0.0",
    confirmed := fun _ => false, launches := fun _ => 0,
    bundles := some "gen2", pending := none, backup := some "gen1" }

/-- An installation with a staged pending update over a live current
generation. -/
def stStaged : ClientState :=
  { currentVersion := some "1.0.0", pendingVersion := some "2.0.0",
    previousVersion := none,
    confirmed := fun _ => false, launches := fun _ => 0,
    bundles := some "gen1", pending := some "gen2", backup := none }

/-- An installation holding a backup generation directory. -/
def stWithBackup : ClientState :=
  { currentVersion := some "2.0.0", pendingVersion := none,
    previousVersion := none,
    confirmed := fun _ => true, launches := fun _ => 1,
    bundles := some "gen2", pending := none, backup := some "genB" }

/-- A one-file tree of positive total size. -/
def oneFileTree : LynxDiff.Tree := [⟨"a", "h1", 5⟩]

end Fixtures

/-!
Lemmas about the reconstruction primitives, leading to the round-trip
theorem for the delta engine.
-/

namespace LynxDiff

/-- Unfolding of object lookup over a cons cell. -/
theorem lookupPairs_cons (a : String × String) (l : List (String × String))
    (q : String) :
    lookupPairs (a :: l) q = if a.1 = q then some a.2 else lookupPairs l q := by
  by_cases h : a.1 = q
  · simp [lookupPairs, List.find?, h]
  · have hb : (a.1 == q) = false := beq_eq_false_iff_ne.mpr h
    simp [lookupPairs, List.find?, hb, h]

/-- Object lookup distributes over list append, preferring the left
part. -/
theorem lookupPairs_append (l₁ l₂ : List (String × String)) (q : String) :
    lookupPairs (l₁ ++ l₂) q
      = match lookupPairs l₁ q with
        | some d => some d
        | none => lookupPairs l₂ q := by
  induction l₁ with
  | nil => simp [lookupPairs]
  | cons a rest ih =>
    rw [List.cons_append, lookupPairs_cons, lookupPairs_cons]
    by_cases h : a.1 = q
    · simp [h]
    · simp [h, ih]

/-- Object lookup on a singleton listing. -/
theorem lookupPairs_singleton (p c q : String) :
    lookupPairs [(p, c)] q = if q = p then some c else none := by
  rw [lookupPairs_cons]
  by_cases h : q = p
  · simp [h]
  · rw [if_neg (fun e => h e.symm), if_neg h]
    rfl

/-- Removing every binding of one path leaves the lookup of every other
path unchanged and that path's lookup empty. -/
theorem lookupPairs_filterNe (l : List (String × String)) (p q : String) :
    lookupPairs (l.filter (fun x => x.1 != p)) q
      = if q = p then none else lookupPairs l q := by
  induction l with
  | nil => by_cases h : q = p <;> simp [lookupPairs, h]
  | cons a rest ih =>
    rw [List.filter_cons]
    by_cases hap : a.1 = p
    · rw [if_neg (by simp [hap]), ih]
      by_cases hqp : q = p
      · simp [hqp]
      · rw [if_neg hqp, if_neg hqp, lookupPairs_cons,
          if_neg (fun e => hqp ((hap.symm.trans e).symm))]
    · rw [if_pos (by simp [hap]), lookupPairs_cons, lookupPairs_cons, ih]
      by_cases haq : a.1 = q
      · have hqp : ¬ q = p := fun e => hap (by rw [haq, e])
        simp [haq, hqp]
      · simp [haq]

/-- Lookup after a single file write: the written path now maps to the
written content, everything else is untouched. -/
theorem lookupPairs_writeFile (t : List (String × String)) (p c q : String) :
    lookupPairs (writeFile t p c) q = if q = p then some c else lookupPairs t q := by
  unfold writeFile
  rw [lookupPairs_append]
  rw [lookupPairs_filterNe]
  by_cases h : q = p
  · simp [h, lookupPairs_singleton]
  · simp only [h, if_false]
    cases hl : lookupPairs t q with
    | some d => rfl
    | none => simp [lookupPairs_singleton, h]

/-- Folding the package writes over a base listing leaves every path
outside the package untouched. -/
theorem lookupPairs_writes_notmem (body : List (String × String)) (q : String) :
    ∀ t : List (String × String), q ∉ body.map Prod.fst →
      lookupPairs (body.foldl (fun acc pc => writeFile acc pc.1 pc.2) t) q
        = lookupPairs t q := by
  induction body with
  | nil => intro t _; rfl
  | cons pc rest ih =>
    intro t hq
    have hq1 : q ≠ pc.1 := fun h => hq (by simp [h])
    have hq2 : q ∉ rest.map Prod.fst := fun h => hq (by simp [h])
    simp only [List.foldl_cons]
    rw [ih _ hq2, lookupPairs_writeFile]
    simp [hq1]

/-- Folding the package writes over a base listing maps every path of
the package to its (consistent) content. -/
theorem lookupPairs_writes_mem (body : List (String × String)) (q c : String) :
    ∀ t : List (String × String), q ∈ body.map Prod.fst →
      (∀ pc ∈ body, pc.1 = q → pc.2 = c) →
      lookupPairs (body.foldl (fun acc pc => writeFile acc pc.1 pc.2) t) q
        = some c := by
  induction body with
  | nil => intro t hmem _; cases hmem
  | cons pc rest ih =>
    intro t hmem hval
    simp only [List.foldl_cons]
    by_cases hr : q ∈ rest.map Prod.fst
    · exact ih _ hr (fun x hx h => hval x (List.mem_cons_of_mem _ hx) h)
    · have hq : pc.1 = q := by
        rcases List.mem_map.mp hmem with ⟨x, hx, hfst⟩
        rcases List.mem_cons.mp hx with rfl | hxr
        · exact hfst
        · exact absurd (hfst ▸ List.mem_map_of_mem Prod.fst hxr) hr
      have hc : pc.2 = c := hval pc (List.mem_cons_self pc rest) hq
      rw [lookupPairs_writes_notmem rest q _ hr, lookupPairs_writeFile]
      simp [hq, hc]

/-- Lookup through the deletion pass: a deleted path is gone, any other
path reads from the copied tree. -/
theorem lookupPairs_filter_deleted (l : List (String × String))
    (del : List String) (q : String) :
    lookupPairs (l.filter (fun x => decide (x.1 ∉ del))) q
      = if q ∈ del then none else lookupPairs l q := by
  induction l with
  | nil => by_cases h : q ∈ del <;> simp [lookupPairs, h]
  | cons a rest ih =>
    rw [List.filter_cons]
    by_cases ha : a.1 ∈ del
    · rw [if_neg (by simp [ha]), ih]
      by_cases hq : q ∈ del
      · simp [hq]
      · have haq : ¬ a.1 = q := fun e => hq (e ▸ ha)
        rw [if_neg hq, lookupPairs_cons, if_neg haq, if_neg hq]
    · rw [if_pos (by simp [ha]), lookupPairs_cons, lookupPairs_cons, ih]
      by_cases haq : a.1 = q
      · have hq : ¬ q ∈ del := fun e => ha (haq ▸ e)
        simp [haq, hq]
      · simp [haq]

/-- Lookup on the copied listing agrees with lookup on the scanned
tree. -/
theorem lookupPairs_toMap (t : Tree) (q : String) :
    lookupPairs (toMap t) q = lookupHash t q := by
  unfold lookupPairs lookupHash toMap
  rw [List.find?_map]
  have h1 : ((fun x : String × String => x.1 == q)
      ∘ fun e : FileEntry => (e.path, e.hash)) = fun e : FileEntry => e.path == q := rfl
  rw [h1, Option.map_map]
  rfl

/-- A successful tree lookup names the first matching entry: it is a
member, its path is the looked-up one, and its hash is the result. -/
theorem lookupHash_eq_some_elim (t : Tree) (p c : String)
    (h : lookupHash t p = some c) :
    ∃ e ∈ t, e.path = p ∧ e.hash = c := by
  unfold lookupHash at h
  cases hf : List.find? (fun e => e.path == p) t with
  | none => rw [hf] at h; cases h
  | some e =>
    rw [hf] at h
    refine ⟨e, List.mem_of_find?_eq_some hf, ?_, ?_⟩
    · simpa using List.find?_some hf
    · simpa using h

/-- Every file of the package body carries the content that the new tree
holds at its path. -/
theorem packageFiles_hash (old new : Tree) (pc : String × String)
    (hpc : pc ∈ packageFiles old new) :
    lookupHash new pc.1 = some pc.2 := by
  unfold packageFiles at hpc
  rcases List.mem_filterMap.mp hpc with ⟨p, _, hmk⟩
  cases hf : List.find? (fun e => e.path == p) new with
  | none => rw [hf] at hmk; cases hmk
  | some e =>
    rw [hf] at hmk
    have hp : p = pc.1 := congrArg Prod.fst (Option.some.inj hmk)
    have hh : e.hash = pc.2 := congrArg Prod.snd (Option.some.inj hmk)
    unfold lookupHash
    rw [← hp, hf]
    show some e.hash = some pc.2
    exact congrArg some hh

/-- A path of the added or modified lists that is present in the new
tree appears among the package body's paths. -/
theorem mem_packageFiles_keys (old new : Tree) (q : String)
    (hq : q ∈ (generateDiff old new).added ∨ q ∈ (generateDiff old new).modified)
    (hsome : (lookupHash new q).isSome = true) :
    q ∈ (packageFiles old new).map Prod.fst := by
  cases hf : List.find? (fun e => e.path == q) new with
  | none =>
    rw [lookupHash, hf] at hsome
    cases hsome
  | some e =>
    refine List.mem_map.mpr ⟨(q, e.hash), ?_, rfl⟩
    unfold packageFiles
    exact List.mem_filterMap.mpr ⟨q, List.mem_append.mpr hq, by rw [hf]⟩

/-- A path present in the new tree but absent from the old one is in the
added list. -/
theorem mem_added_of_lookup (old new : Tree) (p c : String)
    (hn : lookupHash new p = some c) (ho : lookupHash old p = none) :
    p ∈ (generateDiff old new).added := by
  rcases lookupHash_eq_some_elim new p c hn with ⟨e, he, hpath, _⟩
  unfold generateDiff
  refine List.mem_map.mpr ⟨e, List.mem_filter.mpr ⟨he, ?_⟩, hpath⟩
  rw [hpath, ho]
  rfl

/-- A path present in both trees with differing hashes is in the
modified list. -/
theorem mem_modified_of_lookup (old new : Tree) (p c h : String)
    (hn : lookupHash new p = some c) (ho : lookupHash old p = some h)
    (hne : h ≠ c) :
    p ∈ (generateDiff old new).modified := by
  rcases lookupHash_eq_some_elim new p c hn with ⟨e, he, hpath, hhash⟩
  unfold generateDiff
  refine List.mem_map.mpr ⟨e, List.mem_filter.mpr ⟨he, ?_⟩, hpath⟩
  rw [hpath, ho, hhash]
  simpa using hne

/-- A path present in the old tree but absent from the new one is in the
deleted list. -/
theorem mem_deleted_of_lookup (old new : Tree) (p h : String)
    (ho : lookupHash old p = some h) (hn : lookupHash new p = none) :
    p ∈ (generateDiff old new).deleted := by
  rcases lookupHash_eq_some_elim old p h ho with ⟨e, he, hpath, _⟩
  unfold generateDiff
  refine List.mem_map.mpr ⟨e, List.mem_filter.mpr ⟨he, ?_⟩, hpath⟩
  rw [hpath, hn]
  rfl

/-- A path of the deleted list is absent from the new tree. -/
theorem lookup_none_of_mem_deleted (old new : Tree) (p : String)
    (hdel : p ∈ (generateDiff old new).deleted) :
    lookupHash new p = none := by
  unfold generateDiff at hdel
  rcases List.mem_map.mp hdel with ⟨e, hef, hpath⟩
  have := (List.mem_filter.mp hef).2
  rw [hpath] at this
  simpa using this

end LynxDiff

/-!
Claim theorems: the update resolver.
-/

section ResolverClaims
open LynxServer

/-- C1, counterexample: in the spec's example scenario, after patching
2.0.0 to disabled, the resolver answers NoUpdate — it does not fall back
to the 1.5.0 release as the claim states. -/
theorem claim1_counterexample :
    checkUpdate (fun _ _ => true) 0 [rel20d, rel15] "1.0.0" none = none ∧
    checkUpdate (fun _ _ => true) 0 [rel20d, rel15] "1.0.0" none ≠ some rel15 :=
  ⟨rfl, fun h => nomatch h⟩

/-- C1, amended: with releases 2.0.0 (rollout 100, enabled) and 1.5.0,
resolve from 1.0.0 returns 2.0.0; after patching 2.0.0 to disabled the
same request yields NoUpdate, because the scan does not skip disabled
entries — the disabled check is applied only to the already selected
newest applicable release. -/
theorem claim1_amended_resolution (sat : String → String → Bool) (sample : ℚ) :
    checkUpdate sat sample [rel20, rel15] "1.0.0" none = some rel20 ∧
    checkUpdate sat sample [rel20d, rel15] "1.0.0" none = none :=
  ⟨rfl, rfl⟩

/-- When the request carries no app version, the target-binary-range
skip condition of the scan is false regardless of the range predicate. -/
theorem skipTargetBinary_none (sat : String → String → Bool) (r : Release) :
    skipTargetBinary sat r none = false := by
  simp [skipTargetBinary, optTruthy]

/-- With no app version in the request, the scan's outcome does not
depend on the range predicate at all. -/
theorem findApplicable_indep (sat sat' : String → String → Bool)
    (releases : List Release) (cv : String) :
    findApplicableRelease sat releases cv none
      = findApplicableRelease sat' releases cv none := by
  induction releases with
  | nil => rfl
  | cons r rest ih =>
    simp [findApplicableRelease, skipTargetBinary_none, ih]

/-- C5, counterexample: a release whose target binary range is the
non-wildcard 1.5.0 is returned by a request carrying no app version,
even under a range predicate admitting nothing — the claim says it is
always skipped. -/
theorem claim5_counterexample :
    relRange.targetBinaryVersion ≠ some "*" ∧
    checkUpdate (fun _ _ => false) 0 [relRange] "1.0.0" none = some relRange :=
  ⟨by decide, rfl⟩

/-- C5, amended: when the resolve request carries no app version the
target-binary-range check is bypassed entirely — the resolution is
independent of the range predicate, and a non-wildcard release is not
skipped on that criterion. -/
theorem claim5_amended_range_bypassed (sat sat' : String → String → Bool)
    (sample : ℚ) (releases : List Release) (cv : String) :
    checkUpdate sat sample releases cv none
      = checkUpdate sat' sample releases cv none := by
  unfold checkUpdate
  rw [findApplicable_indep sat sat']

/-- C6: once the scan selects a release, a rollout of 0 is never offered
under any nonnegative sample, and a rollout of 100 on an enabled release
is always offered, the sample never being consulted. -/
theorem claim6_rollout_gating (sat : String → String → Bool) (sample : ℚ)
    (releases : List Release) (cv : String) (av : Option String) (r : Release)
    (hfind : findApplicableRelease sat releases cv av = some r)
    (hs : 0 ≤ sample) :
    (r.rollout = 0 → checkUpdate sat sample releases cv av = none) ∧
    (r.rollout = 100 → r.disabled = false →
      checkUpdate sat sample releases cv av = some r) := by
  constructor
  · intro h0
    unfold checkUpdate
    rw [hfind]
    simp only [h0]
    rw [if_pos (by norm_num)]
    rw [if_neg (by push_cast; linarith)]
  · intro h100 hdis
    unfold checkUpdate
    rw [hfind]
    simp only [h100, hdis]
    rw [if_neg (by norm_num)]
    simp

/-- C6 witness: concrete instances — a rollout 0 release is not offered
under the sample 37, and the enabled release 2.0.0 with rollout 100 is
offered under the same sample. -/
theorem claim6_witness :
    checkUpdate (fun _ _ => true) 37 [rel0] "1.0.0" none = none ∧
    checkUpdate (fun _ _ => true) 37 [rel20] "1.0.0" none = some rel20 :=
  ⟨(claim6_rollout_gating (fun _ _ => true) 37 [rel0] "1.0.0" none rel0
      (by decide) (by norm_num)).1 rfl,
   (claim6_rollout_gating (fun _ _ => true) 37 [rel20] "1.0.0" none rel20
      (by decide) (by norm_num)).2 rfl rfl⟩

end ResolverClaims

/-!
Claim theorems: the client update agent.
-/

section ClientClaims
open LynxClient

/-- C2 (code bug), evaluated at the failing input: from an installation
whose current 2.0.0 is unconfirmed and which holds a backup of 1.0.0,
three consecutive launches change nothing — `init` only applies a
pending update and never runs `checkAutoRollback`, so no rollback occurs
and the current version stays 2.0.0 instead of reverting to 1.0.0. -/
theorem claim2_no_rollback_on_launches :
    stUnconfirmed.confirmed "2.0.0" = false ∧
    stUnconfirmed.backup = some "gen1" ∧
    sdkInit (sdkInit (sdkInit stUnconfirmed)) = stUnconfirmed ∧
    (sdkInit (sdkInit (sdkInit stUnconfirmed))).currentVersion = some "2.0.0" ∧
    (sdkInit (sdkInit (sdkInit stUnconfirmed))).currentVersion
      ≠ stUnconfirmed.previousVersion := by
  refine ⟨rfl, rfl, rfl, rfl, ?_⟩
  intro h
  exact absurd (Option.some.inj h) (by decide)

/-- C3 (code bug), evaluated at the failing input: applying a staged
pending update deletes the current generation before the rename, so the
intermediate state has no current generation directory at all, and the
completed apply never moves the displaced generation into backup. -/
theorem claim3_apply_window_and_no_backup :
    (applyPendingUpdateMid stStaged).bundles = none ∧
    applyPendingUpdate stStaged = applyFinish (applyPendingUpdateMid stStaged) "2.0.0" ∧
    (applyPendingUpdate stStaged).backup = none ∧
    (applyPendingUpdate stStaged).bundles = some "gen2" :=
  ⟨rfl, rfl, rfl, rfl⟩

/-- C7, counterexample: clearUpdates leaves the backup generation
directory in place — the claim says the backup generation is discarded. -/
theorem claim7_counterexample :
    (clearUpdates stWithBackup).backup = some "genB" ∧
    (clearUpdates stWithBackup).backup ≠ none :=
  ⟨rfl, fun h => nomatch h⟩

/-- C7, amended: clearUpdates unconditionally discards the current and
pending generations and every preference entry — the recorded versions,
the previous-version pointer and all confirmation state — but the backup
generation directory itself is left untouched. -/
theorem claim7_amended_clear (st : ClientState) :
    (clearUpdates st).bundles = none ∧
    (clearUpdates st).pending = none ∧
    (clearUpdates st).currentVersion = none ∧
    (clearUpdates st).pendingVersion = none ∧
    (clearUpdates st).previousVersion = none ∧
    (∀ v, (clearUpdates st).confirmed v = false) ∧
    (∀ v, (clearUpdates st).launches v = 0) ∧
    (clearUpdates st).backup = st.backup :=
  ⟨rfl, rfl, rfl, rfl, rfl, fun _ => rfl, fun _ => rfl, rfl⟩

/-- C9: after staging a package and applying it once, no pending
generation or pending version remains, and a second apply without an
intervening stage is the identity on the whole state. -/
theorem claim9_second_apply_noop (st : ClientState) (pkg v : String) :
    (applyPendingUpdate (installUpdate st pkg v)).pendingVersion = none ∧
    (applyPendingUpdate (installUpdate st pkg v)).pending = none ∧
    applyPendingUpdate (applyPendingUpdate (installUpdate st pkg v))
      = applyPendingUpdate (installUpdate st pkg v) :=
  ⟨rfl, rfl, rfl⟩

/-- C10: with no advertised hash the download verification is skipped
and the package is staged as pending; with an advertised hash differing
from the received digest the attempt fails with no state change. -/
theorem claim10_hash_verification (st : ClientState) (fileHash pkg v : String) :
    downloadVerify st none fileHash pkg v = (installUpdate st pkg v, true) ∧
    (downloadVerify st none fileHash pkg v).1.pendingVersion = some v ∧
    (downloadVerify st none fileHash pkg v).1.pending = some pkg ∧
    ∀ h, h ≠ fileHash → downloadVerify st (some h) fileHash pkg v = (st, false) := by
  refine ⟨rfl, rfl, rfl, fun h hne => ?_⟩
  have hb : (fileHash != h) = true := by
    simp only [bne_iff_ne, ne_eq]
    exact fun e => hne e.symm
  simp [downloadVerify, hb]

/-- C10 witness: a concrete state, package and version, with the hashes
aa and bb differing. -/
theorem claim10_witness :
    downloadVerify stWithBackup none "aa" "pkg" "3.0.0"
      = (installUpdate stWithBackup "pkg" "3.0.0", true) ∧
    downloadVerify stWithBackup (some "bb") "aa" "pkg" "3.0.0"
      = (stWithBackup, false) :=
  ⟨(claim10_hash_verification stWithBackup "aa" "pkg" "3.0.0").1,
   (claim10_hash_verification stWithBackup "aa" "pkg" "3.0.0").2.2.2 "bb" (by decide)⟩

end ClientClaims

/-!
Claim theorems: the delta packaging engine.
-/

namespace LynxDiff

/-- Unfolding of tree lookup over a cons cell. -/
theorem lookupHash_cons (a : FileEntry) (l : Tree) (q : String) :
    lookupHash (a :: l) q = if a.path = q then some a.hash else lookupHash l q := by
  by_cases h : a.path = q
  · simp [lookupHash, List.find?, h]
  · have hb : (a.path == q) = false := beq_eq_false_iff_ne.mpr h
    simp [lookupHash, List.find?, hb, h]

/-- Looking up the path of a member entry succeeds. -/
theorem lookupHash_isSome_of_mem (t : Tree) (e : FileEntry) (he : e ∈ t) :
    (lookupHash t e.path).isSome = true := by
  unfold lookupHash
  cases hf : List.find? (fun x => x.path == e.path) t with
  | none =>
    have hs : (List.find? (fun x => x.path == e.path) t).isSome = true :=
      List.find?_isSome.mpr ⟨e, he, by simp⟩
    rw [hf] at hs
    cases hs
  | some a => rfl

/-- On a tree with unique paths, looking up a member entry's path yields
that entry's hash. -/
theorem lookupHash_self_of_nodup (t : Tree) :
    (t.map (fun x => x.path)).Nodup →
      ∀ e ∈ t, lookupHash t e.path = some e.hash := by
  induction t with
  | nil => intro _ e he; cases he
  | cons a rest ih =>
    intro hnd e he
    rw [List.map_cons, List.nodup_cons] at hnd
    rcases List.mem_cons.mp he with rfl | hmem
    · rw [lookupHash_cons, if_pos rfl]
    · rw [lookupHash_cons,
        if_neg (fun h => hnd.1 (by rw [h]; exact List.mem_map_of_mem _ hmem))]
      exact ih hnd.2 e hmem

/-- Diffing a tree against itself adds nothing. -/
theorem generateDiff_self_added (t : Tree) : (generateDiff t t).added = [] := by
  have hf : t.filter (fun e => (lookupHash t e.path).isNone) = [] := by
    rw [List.filter_eq_nil_iff]
    intro e he
    intro hcontra
    rw [Option.isNone_iff_eq_none] at hcontra
    have hs := lookupHash_isSome_of_mem t e he
    rw [hcontra] at hs
    cases hs
  simp [generateDiff, hf]

/-- Diffing a unique-path tree against itself modifies nothing. -/
theorem generateDiff_self_modified (t : Tree)
    (hnd : (t.map (fun x => x.path)).Nodup) : (generateDiff t t).modified = [] := by
  have hf : t.filter (fun e =>
      match lookupHash t e.path with
      | some h => h != e.hash
      | none => false) = [] := by
    rw [List.filter_eq_nil_iff]
    intro e he
    rw [lookupHash_self_of_nodup t hnd e he]
    simp
  simp [generateDiff, hf]

/-- Diffing a unique-path tree against itself yields an empty package
body and hence a delta of size zero. -/
theorem diffSize_self (t : Tree)
    (hnd : (t.map (fun x => x.path)).Nodup) : diffSize t t = 0 := by
  unfold diffSize
  have hf : t.filter (fun e => includedInDiff t t e.path) = [] := by
    rw [List.filter_eq_nil_iff]
    intro e he
    simp [includedInDiff, generateDiff_self_added,
      generateDiff_self_modified t hnd]
  rw [hf]
  rfl

end LynxDiff

section DiffClaims
open LynxDiff

/-- C4: applying the delta package built from the diff of two trees onto
the old tree reconstructs a listing content-identical to the new tree —
every path looks up to exactly the hash the new tree holds, so the path
sets and all content hashes agree. -/
theorem claim4_apply_diff_reconstructs (old new : Tree)
    (hoe : old ≠ []) (hne : new ≠ []) (p : String) :
    lookupPairs (applyDiffPackage old (generateDiff old new).deleted
      (packageFiles old new)) p = lookupHash new p := by
  unfold applyDiffPackage
  by_cases hbody : p ∈ (packageFiles old new).map Prod.fst
  · rcases List.mem_map.mp hbody with ⟨pc, hpc, hfst⟩
    have hv : lookupHash new p = some pc.2 := by
      have hp := packageFiles_hash old new pc hpc
      rwa [hfst] at hp
    have hval : ∀ x ∈ packageFiles old new, x.1 = p → x.2 = pc.2 := by
      intro x hx hxq
      have hx' := packageFiles_hash old new x hx
      rw [hxq, hv] at hx'
      exact (Option.some.inj hx').symm
    rw [lookupPairs_writes_mem _ p pc.2 _ hbody hval, hv]
  · rw [lookupPairs_writes_notmem _ p _ hbody, lookupPairs_filter_deleted,
      lookupPairs_toMap]
    by_cases hdel : p ∈ (generateDiff old new).deleted
    · rw [if_pos hdel]
      exact (lookup_none_of_mem_deleted old new p hdel).symm
    · rw [if_neg hdel]
      cases hn : lookupHash new p with
      | some c =>
        cases ho : lookupHash old p with
        | none =>
          exact absurd (mem_packageFiles_keys old new p
            (Or.inl (mem_added_of_lookup old new p c hn ho))
            (by rw [hn]; rfl)) hbody
        | some h =>
          by_cases hhc : h = c
          · exact congrArg some hhc
          · exact absurd (mem_packageFiles_keys old new p
              (Or.inr (mem_modified_of_lookup old new p c h hn ho hhc))
              (by rw [hn]; rfl)) hbody
      | none =>
        cases ho : lookupHash old p with
        | none => rfl
        | some h => exact absurd (mem_deleted_of_lookup old new p h ho hn) hdel

/-- C4 witness: the spec's own example pair of trees, checked at the
modified path b. -/
theorem claim4_witness :
    treeA ≠ [] ∧ treeB ≠ [] ∧
    lookupPairs (applyDiffPackage treeA (generateDiff treeA treeB).deleted
      (packageFiles treeA treeB)) "b" = lookupHash treeB "b" :=
  ⟨by decide, by decide,
    claim4_apply_diff_reconstructs treeA treeB (by decide) (by decide) "b"⟩

/-- C8, counterexample: building the delta package of a nonempty tree
against itself reports savedPercent 100, not 0 as the claim states. -/
theorem claim8_counterexample :
    savedPercent oneFileTree oneFileTree = 100 ∧
    savedPercent oneFileTree oneFileTree ≠ 0 := by
  have h1 : fullSize oneFileTree = 5 := by decide
  have h2 : diffSize oneFileTree oneFileTree = 0 := by decide
  have h : savedPercent oneFileTree oneFileTree = 100 := by
    rw [savedPercent, h1, h2, if_pos (by norm_num), jsRound,
      (Rat.floor_def' _).trans Rat.floor_def.symm]
    exact Int.floor_eq_iff.mpr (by norm_num)
  exact ⟨h, by rw [h]; decide⟩

/-- C8, amended: when the old and new trees are the same unique-path
tree, the delta is empty, so savedPercent is 100 when the tree's total
size is positive, and 0 when the total size is zero. -/
theorem claim8_amended_savedPercent (t : LynxDiff.Tree)
    (hnd : (t.map (fun e => e.path)).Nodup) :
    (0 < fullSize t → savedPercent t t = 100) ∧
    (fullSize t = 0 → savedPercent t t = 0) := by
  have hd : diffSize t t = 0 := diffSize_self t hnd
  constructor
  · intro hpos
    rw [savedPercent, hd, if_pos hpos, jsRound,
      (Rat.floor_def' _).trans Rat.floor_def.symm]
    exact Int.floor_eq_iff.mpr (by norm_num)
  · intro h0
    rw [savedPercent, if_neg (by simp [h0])]

/-- C8 witness: a one-file tree of size 5 has positive total size and
savedPercent 100 against itself. -/
theorem claim8_witness :
    (oneFileTree.map (fun e => e.path)).Nodup ∧ 0 < fullSize oneFileTree ∧
    savedPercent oneFileTree oneFileTree = 100 :=
  ⟨by decide, by decide,
    (claim8_amended_savedPercent oneFileTree (by decide)).1 (by decide)⟩

end DiffClaims
